import Mathlib

/- A verification development for the OpenFOAM-style dictionary codec and the
file-identity/snapshot layer of this repository.  The lexer, structural parser
and builder are translated from src/interface/foam_parser.py; the file model
(singleton handles, snapshots, rollback, delete) from src/interface/file.py.
Machine integers are modelled as Int/Nat; Python floats are modelled as exact
decimal rationals (numerator and a power-of-ten denominator), which agrees with
CPython on every value these claims mention. -/

namespace SH30

/- Generic list-splitting helpers used by the reduction passes.  splitAtFirst
returns the prefix before the first element satisfying p together with that
element and the rest; splitAtLast splits at the last such element. -/

def splitAtFirst (p : α → Bool) : List α → List α × Option (α × List α)
  | [] => ([], none)
  | x :: xs =>
    if p x then ([], some (x, xs))
    else
      let r := splitAtFirst p xs
      (x :: r.1, r.2)

def splitAtLast (p : α → Bool) : List α → Option (List α × List α)
  | [] => none
  | x :: xs =>
    match splitAtLast p xs with
    | some (pre, post) => some (x :: pre, post)
    | none => if p x then some ([], xs) else none

theorem splitAtFirst_none (p : α → Bool) (l : List α) (h : ∀ x ∈ l, p x = false) :
    splitAtFirst p l = (l, none) := by
  induction l with
  | nil => rfl
  | cons x xs ih =>
    have hx : p x = false := h x (List.mem_cons_self x xs)
    simp [splitAtFirst, hx, ih fun y hy => h y (List.mem_cons_of_mem x hy)]

theorem splitAtFirst_found (p : α → Bool) (pre : List α) (x : α) (post : List α)
    (hpre : ∀ y ∈ pre, p y = false) (hx : p x = true) :
    splitAtFirst p (pre ++ x :: post) = (pre, some (x, post)) := by
  induction pre with
  | nil => simp [splitAtFirst, hx]
  | cons y ys ih =>
    have hy : p y = false := hpre y (List.mem_cons_self y ys)
    simp [splitAtFirst, hy, ih fun z hz => hpre z (List.mem_cons_of_mem y hz)]

theorem splitAtLast_found (p : α → Bool) (pre : List α) (x : α) (post : List α)
    (hx : p x = true) (hpost : ∀ y ∈ post, p y = false) :
    splitAtLast p (pre ++ x :: post) = some (pre, post) := by
  induction pre with
  | nil =>
    have hnone : splitAtLast p post = none := by
      induction post with
      | nil => rfl
      | cons z zs ihz =>
        have hz : p z = false := hpost z (List.mem_cons_self z zs)
        simp [splitAtLast, ihz fun w hw => hpost w (List.mem_cons_of_mem z hw), hz]
    simp [splitAtLast, hnone, hx]
  | cons y ys ih => simp [splitAtLast, ih]

/- Decimal rendering and reading of natural numbers and integers, mirroring
Python str(int) and int(str) on the strings this development produces. -/

def digitChar (n : Nat) : Char := Char.ofNat (48 + n)

def natDigitsAux : Nat → Nat → List Char
  | 0, _ => []
  | f+1, n => if n < 10 then [digitChar n] else natDigitsAux f (n / 10) ++ [digitChar (n % 10)]

def natRepr (n : Nat) : String := String.mk (natDigitsAux (n+1) n)

def intRepr : Int → String
  | .ofNat n => natRepr n
  | .negSucc m => "-" ++ natRepr (m + 1)

def digitsToNat (ds : List Char) : Nat :=
  ds.foldl (fun acc c => 10 * acc + (c.toNat - 48)) 0

/- The value domain: every Python object the parser can place in a result
dictionary.  MultiValue and DictTuple from the source are the vmulti and
vdicttuple constructors; Python dicts keep insertion order, modelled as
association lists with unique keys. -/

structure PyFloat where
  num : Int
  den : Nat
deriving DecidableEq, Repr

inductive Value where
  | vint (i : Int)
  | vfloat (f : PyFloat)
  | vstr (s : String)
  | vtuple (xs : List Value)
  | vmulti (xs : List Value)
  | vlist (xs : List Value)
  | vdict (es : List (String × Value))
  | vdicttuple (es : List (String × Value))

abbrev PyDict := List (String × Value)

/- Tokens, as in foam_parser.py: lexical kinds plus the parser-internal VALUE
and PAIR reduction markers.  A PAIR token carries the pair name and the list of
collected values (the source keeps raw tokens there and maps them to values at
dictionary-assembly time; mapping them at pair-formation time is observably the
same and is done here). -/

inductive PToken where
  | punct (c : Char)
  | name (s : String)
  | int (i : Int)
  | float (f : PyFloat)
  | str (s : String)
  | value (v : Value)
  | pair (k : String) (vs : List Value)

/- Lexer (class FOAMLexer).  Python raises IndexError on out-of-range string
indexing and ValueError from int()/float() on malformed literals; both are
modelled explicitly, as is fuel exhaustion (never reached with the fuel
tokenize supplies). -/

inductive LexErr where
  | indexError
  | valueError
  | fuel
deriving DecidableEq, Repr

def isPunctChar (c : Char) : Bool :=
  c = '(' || c = ')' || c = '\x7b' || c = '\x7d' || c = '[' || c = ']' ||
  c = ';' || c = '\'' || c = '"'

/- Python str.isspace (also the class matched by a backslash-s in an re
pattern over str): the complete CPython whitespace table — the ASCII controls
tab through carriage return, the file/group/record/unit separators, space,
next line, no-break space, ogham space mark, the general-punctuation spaces,
line and paragraph separators, narrow no-break space, medium mathematical
space and ideographic space.  Note this is wider than Lean's
Char.isWhitespace. -/

def pyIsSpace (c : Char) : Bool :=
  decide ((9 ≤ c.toNat ∧ c.toNat ≤ 13) ∨ (28 ≤ c.toNat ∧ c.toNat ≤ 32) ∨
    c.toNat = 133 ∨ c.toNat = 160 ∨ c.toNat = 5760 ∨
    (8192 ≤ c.toNat ∧ c.toNat ≤ 8202) ∨ c.toNat = 8232 ∨ c.toNat = 8233 ∨
    c.toNat = 8239 ∨ c.toNat = 8287 ∨ c.toNat = 12288)

def isNameChar (c : Char) : Bool := !pyIsSpace c && !isPunctChar c

def spanP (p : α → Bool) : List α → List α × List α
  | [] => ([], [])
  | c :: cs =>
    if p c then
      let r := spanP p cs
      (c :: r.1, r.2)
    else ([], c :: cs)

def skipLineComment : List Char → List Char
  | [] => []
  | c :: cs => if c = '\n' then c :: cs else skipLineComment cs

def blockEnd : List Char → List Char
  | [] => []
  | '*' :: '/' :: cs => cs
  | _ :: cs => blockEnd cs

def isSignChar (c : Char) : Bool := c = '+' || c = '-'

/- The numeric scanner _try_get_number.  It consumes sign, digits, an optional
dot with digits, and an optional exponent; an exponent marker with no digits is
consumed but has_exp is reset.  If the validity check passes the source calls
int()/float() on the consumed slice, which raises ValueError exactly when an
exponent marker was consumed without digits, or when a float slice has no
digits at all.  Digit membership is str.isdigit() in the source; Char.isDigit
agrees with it on every ASCII character, and every theorem below that touches
the scanner stays inside ASCII (non-ASCII numeric characters such as the
superscripts, which str.isdigit() also accepts but int() then rejects, are out
of scope of the statements proved here). -/

structure NumScan where
  sgn : Option Char
  intDigits : List Char
  hasDot : Bool
  fracDigits : List Char
  consumedExp : Bool
  expSgn : Option Char
  expDigits : List Char
  rest : List Char

def numScan (input : List Char) : NumScan :=
  let s0 : Option Char × List Char :=
    match input with
    | c :: cs => if isSignChar c then (some c, cs) else (none, input)
    | [] => (none, [])
  let r1 := spanP Char.isDigit s0.2
  let s2 : Bool × List Char :=
    match r1.2 with
    | c :: cs => if c = '.' then (true, cs) else (false, r1.2)
    | [] => (false, r1.2)
  let r3 := if s2.1 then spanP Char.isDigit s2.2 else ([], s2.2)
  match r3.2 with
  | c :: cs =>
    if c = 'e' || c = 'E' then
      let s4 : Option Char × List Char :=
        match cs with
        | c' :: cs' => if isSignChar c' then (some c', cs') else (none, cs)
        | [] => (none, [])
      let r5 := spanP Char.isDigit s4.2
      { sgn := s0.1, intDigits := r1.1, hasDot := s2.1, fracDigits := r3.1,
        consumedExp := true, expSgn := s4.1, expDigits := r5.1, rest := r5.2 }
    else
      { sgn := s0.1, intDigits := r1.1, hasDot := s2.1, fracDigits := r3.1,
        consumedExp := false, expSgn := none, expDigits := [], rest := r3.2 }
  | [] =>
    { sgn := s0.1, intDigits := r1.1, hasDot := s2.1, fracDigits := r3.1,
      consumedExp := false, expSgn := none, expDigits := [], rest := [] }

def scanFloatValue (s : NumScan) : PyFloat :=
  let mant : Int := Int.ofNat (digitsToNat (s.intDigits ++ s.fracDigits))
  let mant : Int := if s.sgn = some '-' then -mant else mant
  let den0 : Nat := 10 ^ s.fracDigits.length
  let e : Nat := digitsToNat s.expDigits
  if s.expSgn = some '-' then ⟨mant, den0 * 10 ^ e⟩
  else ⟨mant * Int.ofNat (10 ^ e), den0⟩

def scanIntValue (s : NumScan) : Int :=
  let n : Int := Int.ofNat (digitsToNat s.intDigits)
  if s.sgn = some '-' then -n else n

def tryGetNumber (input : List Char) : Except LexErr (Option (PToken × List Char)) :=
  let s := numScan input
  let numDigits := s.intDigits.length + s.fracDigits.length
  let consumed := input.length - s.rest.length
  let hasExp := s.consumedExp && s.expDigits.length > 0
  if numDigits > 0 || (s.hasDot && consumed ≥ 2) then
    if s.hasDot || hasExp then
      if numDigits = 0 || (s.consumedExp && !hasExp) then .error .valueError
      else .ok (some (.float (scanFloatValue s), s.rest))
    else
      if s.consumedExp then .error .valueError
      else .ok (some (.int (scanIntValue s), s.rest))
  else .ok none

/- The main tokenize loop.  Note the source bug at the closing-brace rule: it
reads input[pos] with no bounds check, so an input ending in a closing brace
raises IndexError.  Quote characters are in the punctuation set, so the
quoted-string branch of the source is unreachable and strings are stitched
later by the parser. -/

def lexLoop : Nat → List Char → Except LexErr (List PToken)
  | _, [] => .ok []
  | 0, _ => .error .fuel
  | f+1, c :: cs =>
    if pyIsSpace c then lexLoop f cs
    else if c = '/' && cs.head? = some '/' then lexLoop f (skipLineComment cs.tail)
    else if c = '/' && cs.head? = some '*' then lexLoop f (blockEnd cs)
    else if isPunctChar c then
      if c = '\x7d' then
        match cs with
        | [] => .error .indexError
        | c' :: cs' =>
          let rest := if c' = ';' then cs' else c' :: cs'
          match lexLoop f rest with
          | .error e => .error e
          | .ok ts => .ok (.punct '\x7d' :: .punct ';' :: ts)
      else
        match lexLoop f cs with
        | .error e => .error e
        | .ok ts => .ok (.punct c :: ts)
    else
      match tryGetNumber (c :: cs) with
      | .error e => .error e
      | .ok (some (t, rest)) =>
        match lexLoop f rest with
        | .error e => .error e
        | .ok ts => .ok (t :: ts)
      | .ok none =>
        let r := spanP isNameChar (c :: cs)
        match lexLoop f r.2 with
        | .error e => .error e
        | .ok ts => .ok (.name (String.mk r.1) :: ts)

def tokenize (s : String) : Except LexErr (List PToken) :=
  lexLoop (s.data.length + 1) s.data

/- Rendering helpers: intRepr above is Python str(int); floatRepr renders the
exact decimal value with at least one fractional digit, matching Python
str(float) on the plain decimal values this development manipulates (Python
switches to exponent notation for very large or small magnitudes, which no
claim here exercises). -/

def floatRepr (f : PyFloat) : String :=
  let a := f.num.natAbs
  let k := (natDigitsAux (f.den + 1) f.den).length - 1
  let ds0 := natDigitsAux (a % f.den + 1) (a % f.den)
  let ds1 := List.replicate (k - ds0.length) '0' ++ ds0
  let ds2 := (ds1.reverse.dropWhile (fun c => c = '0')).reverse
  let ds3 := if ds2.isEmpty then ['0'] else ds2
  (if f.num < 0 then "-" else "") ++ natRepr (a / f.den) ++ "." ++ String.mk ds3

/- Structural parser (FOAMParser._parse): five reduction passes over the token
list, then dictionary assembly.  Every ValueError raise site of the source is a
distinct constructor here. -/

inductive PErr where
  | unmatchedQuote
  | unmatchedBraceClose
  | unmatchedBraceOpen
  | unmatchedParenClose
  | unmatchedParenOpen
  | unmatchedBrackClose
  | unmatchedBrackOpen
  | unmatchedSemicolon
  | unexpectedToken
  | unmatchedName
  | fuel
deriving DecidableEq, Repr

def isPunctTok : PToken → Bool
  | .punct _ => true
  | _ => false

def isNameTok : PToken → Bool
  | .name _ => true
  | _ => false

def punctIs (c : Char) : PToken → Bool
  | .punct c' => c' = c
  | _ => false

def isQuotePunct : PToken → Bool
  | .punct c => c = '\'' || c = '"'
  | _ => false

/- Python str(token.value), used by the quoted-string stitching pass on the
lexical tokens it can encounter there (VALUE and PAIR tokens cannot occur in a
slice that still holds quote punctuation, so their rendering is immaterial). -/

def strOfToken : PToken → String
  | .punct c => String.mk [c]
  | .name s => s
  | .str s => s
  | .int i => intRepr i
  | .float f => floatRepr f
  | .value _ => ""
  | .pair _ _ => ""

/- Python token.value as a parse-result value.  A punctuation token's value is
its character (a one-character string); a PAIR token never occurs in a value
position (the pair pass errors on stray punctuation first), so any total
choice for it is unobservable. -/

def tokenValue : PToken → Value
  | .punct c => .vstr (String.mk [c])
  | .name s => .vstr s
  | .str s => .vstr s
  | .int i => .vint i
  | .float f => .vfloat f
  | .value v => v
  | .pair _ vs => .vmulti vs

def quoteCharOf : PToken → Char
  | .punct c => c
  | _ => ' '

def joinStr : List String → String
  | [] => ""
  | s :: ss => s ++ joinStr ss

/- Pass 1: quoted-string stitching.  The first quote punctuation token opens a
region; the next quote punctuation with the same character closes it (the
other quote character in between is ordinary content, as in the source's flag
logic); the region is replaced by one String token holding the concatenation
of str(token.value) over the interior.  An unclosed quote is an error. -/

def quoteStep (ts : List PToken) : Except PErr (Option (List PToken)) :=
  match splitAtFirst isQuotePunct ts with
  | (_, none) => .ok none
  | (pre, some (q, rest)) =>
    match splitAtFirst (punctIs (quoteCharOf q)) rest with
    | (_, none) => .error .unmatchedQuote
    | (mid, some (_, post)) =>
      .ok (some (pre ++ .str (joinStr (mid.map strOfToken)) :: post))

/- Pass 2: subdictionary reduction.  The scan errors on a closing brace seen
before any opening brace; otherwise the first balanced brace group is located
by depth counting and its interior is recursively parsed into a Dict value. -/

def braceOpenSplit : List PToken → Except PErr (Option (List PToken × List PToken))
  | [] => .ok none
  | t :: ts =>
    if punctIs '\x7b' t then .ok (some ([], ts))
    else if punctIs '\x7d' t then .error .unmatchedBraceClose
    else
      match braceOpenSplit ts with
      | .error e => .error e
      | .ok none => .ok none
      | .ok (some (pre, rest)) => .ok (some (t :: pre, rest))

def braceClose : Nat → List PToken → Option (List PToken × List PToken)
  | _, [] => none
  | d, t :: ts =>
    if punctIs '\x7b' t then
      match braceClose (d+1) ts with
      | some (mid, post) => some (t :: mid, post)
      | none => none
    else if punctIs '\x7d' t then
      if d = 0 then some ([], ts)
      else
        match braceClose (d-1) ts with
        | some (mid, post) => some (t :: mid, post)
        | none => none
    else
      match braceClose d ts with
      | some (mid, post) => some (t :: mid, post)
      | none => none

def braceStep (sub : List PToken → Except PErr PyDict) (ts : List PToken) :
    Except PErr (Option (List PToken)) :=
  match braceOpenSplit ts with
  | .error e => .error e
  | .ok none => .ok none
  | .ok (some (pre, rest)) =>
    match braceClose 0 rest with
    | none => .error .unmatchedBraceOpen
    | some (mid, post) =>
      match sub mid with
      | .error e => .error e
      | .ok d => .ok (some (pre ++ .value (.vdict d) :: post))

/- Pass 3: tuple reduction (lazy).  The scan finds the first closing paren and
the last opening paren before it; a closing paren with no preceding opener, or
an opener with no closer anywhere, is an error.  If the interior still holds
any punctuation token it is a DictTuple (interior recursively parsed),
otherwise a plain tuple of the interior token values. -/

def tupleStep (sub : List PToken → Except PErr PyDict) (ts : List PToken) :
    Except PErr (Option (List PToken)) :=
  match splitAtFirst (punctIs ')') ts with
  | (_, none) =>
    if ts.any (punctIs '(') then .error .unmatchedParenOpen else .ok none
  | (seen, some (_, post)) =>
    match splitAtLast (punctIs '(') seen with
    | none => .error .unmatchedParenClose
    | some (pre, mid) =>
      if mid.any isPunctTok then
        match sub mid with
        | .error e => .error e
        | .ok d => .ok (some (pre ++ .value (.vdicttuple d) :: post))
      else .ok (some (pre ++ .value (.vtuple (mid.map tokenValue)) :: post))

/- Pass 4: list reduction, same algorithm for square brackets; an interior
with punctuation is recursively parsed into a plain Dict value, otherwise a
Python list of the interior token values. -/

def listStep (sub : List PToken → Except PErr PyDict) (ts : List PToken) :
    Except PErr (Option (List PToken)) :=
  match splitAtFirst (punctIs ']') ts with
  | (_, none) =>
    if ts.any (punctIs '[') then .error .unmatchedBrackOpen else .ok none
  | (seen, some (_, post)) =>
    match splitAtLast (punctIs '[') seen with
    | none => .error .unmatchedBrackClose
    | some (pre, mid) =>
      if mid.any isPunctTok then
        match sub mid with
        | .error e => .error e
        | .ok d => .ok (some (pre ++ .value (.vdict d) :: post))
      else .ok (some (pre ++ .value (.vlist (mid.map tokenValue)) :: post))

/- Pass 5: pair reduction.  The first Name token opens a pair; a semicolon
before it is an error, as is any non-semicolon punctuation anywhere in the
scan; the pair closes at the next punctuation token, which must be a
semicolon (consumed), and must collect at least one value; a name with no
following semicolon up to the end of the stream is an error. -/

def pairStep (ts : List PToken) : Except PErr (Option (List PToken)) :=
  match splitAtFirst (fun t => isNameTok t || isPunctTok t) ts with
  | (_, none) => .ok none
  | (pre, some (t, rest)) =>
    match t with
    | .punct c => if c = ';' then .error .unmatchedSemicolon else .error .unexpectedToken
    | .name k =>
      match splitAtFirst isPunctTok rest with
      | (_, none) => .error .unmatchedName
      | (vals, some (t', post)) =>
        match t' with
        | .punct c =>
          if c = ';' then
            if vals.isEmpty then .error .unmatchedName
            else .ok (some (pre ++ .pair k (vals.map tokenValue) :: post))
          else .error .unexpectedToken
        | _ => .error .unexpectedToken
    | _ => .ok none

/- Dictionary assembly: every remaining token must be a PAIR; the ordered map
is built by sequential insertion (a duplicate key keeps its first position and
takes the last value, exactly as a Python dict comprehension does); a pair
with one collected value stores it directly, two or more become a MultiValue. -/

def collapse : List Value → Value
  | [v] => v
  | vs => .vmulti vs

def insertPy : PyDict → String → Value → PyDict
  | [], k, v => [(k, v)]
  | (k', v') :: rest, k, v =>
    if k' = k then (k', v) :: rest else (k', v') :: insertPy rest k v

def allPairs : List PToken → Option (List (String × List Value))
  | [] => some []
  | .pair k vs :: rest => (allPairs rest).map (fun l => (k, vs) :: l)
  | _ => none

def assemble (ts : List PToken) : Except PErr PyDict :=
  match allPairs ts with
  | none => .error .unmatchedName
  | some prs => .ok (prs.foldl (fun d kv => insertPy d kv.1 (collapse kv.2)) [])

/- Each pass runs its step to a fixed point; every successful step removes at
least two tokens and adds one, so fuel equal to the list length plus one is
always sufficient and the fuel error is unreachable from parseTokens. -/

def passLoop (step : List PToken → Except PErr (Option (List PToken))) :
    Nat → List PToken → Except PErr (List PToken)
  | 0, _ => .error .fuel
  | f+1, ts =>
    match step ts with
    | .error e => .error e
    | .ok none => .ok ts
    | .ok (some ts') => passLoop step f ts'

def parseP : Nat → List PToken → Except PErr PyDict
  | 0, _ => .error .fuel
  | f+1, ts =>
    if ts.isEmpty then .ok []
    else
      match passLoop quoteStep (ts.length + 1) ts with
      | .error e => .error e
      | .ok ts1 =>
        match passLoop (braceStep (parseP f)) (ts1.length + 1) ts1 with
        | .error e => .error e
        | .ok ts2 =>
          match passLoop (tupleStep (parseP f)) (ts2.length + 1) ts2 with
          | .error e => .error e
          | .ok ts3 =>
            match passLoop (listStep (parseP f)) (ts3.length + 1) ts3 with
            | .error e => .error e
            | .ok ts4 =>
              match passLoop pairStep (ts4.length + 1) ts4 with
              | .error e => .error e
              | .ok ts5 => assemble ts5

def parseTokens (ts : List PToken) : Except PErr PyDict :=
  parseP (ts.length + 1) ts

inductive CodecErr where
  | lex (e : LexErr)
  | gram (e : PErr)
deriving DecidableEq, Repr

/- FOAMParser(text).value: tokenize then parse. -/

def parseText (s : String) : Except CodecErr PyDict :=
  match tokenize s with
  | .error e => .error (.lex e)
  | .ok ts =>
    match parseTokens ts with
    | .error e => .error (.gram e)
    | .ok d => .ok d

/- Builder (class FOAMBuilder).  Python bool and None never occur in a parse
result, so the value domain above omits them and those two branches of
_build_value have no image here. -/

def joinSep (sep : String) : List String → String
  | [] => ""
  | [x] => x
  | x :: xs => x ++ sep ++ joinSep sep xs

def needsQuoteChar (c : Char) : Bool :=
  pyIsSpace c || c = '\x7b' || c = '\x7d' || c = '[' || c = ']' || c = ';' ||
  c = '(' || c = ')' || c = '"' || c = '\'' || c = '\\'

def escapeChars : List Char → List Char
  | [] => []
  | '\\' :: cs => '\\' :: '\\' :: escapeChars cs
  | '"' :: cs => '\\' :: '"' :: escapeChars cs
  | c :: cs => c :: escapeChars cs

def buildStr (s : String) : String :=
  if s.data.any needsQuoteChar then "\"" ++ String.mk (escapeChars s.data) ++ "\""
  else s

def isPlainDict : Value → Bool
  | .vdict _ => true
  | _ => false

mutual

def buildValue : Value → String
  | .vint i => intRepr i
  | .vfloat f => floatRepr f
  | .vstr s => buildStr s
  | .vlist xs => "[" ++ joinSep " " (buildValueList xs) ++ "]"
  | .vmulti xs => joinSep " " (buildValueList xs)
  | .vtuple xs => "(" ++ joinSep " " (buildValueList xs) ++ ")"
  | .vdict es =>
    if es.isEmpty then "\x7b\x7d"
    else "\x7b\n" ++ joinSep "\n" (buildLines es) ++ "\n\x7d"
  | .vdicttuple es =>
    if es.isEmpty then "\x7b\x7d"
    else "(\n" ++ joinSep "\n" (buildLines es) ++ "\n)"

def buildValueList : List Value → List String
  | [] => []
  | v :: vs => buildValue v :: buildValueList vs

def buildLines : List (String × Value) → List String
  | [] => []
  | (k, v) :: es =>
    let vs := buildValue v
    (if vs.data.contains '\n' then
      if isPlainDict v then k ++ "\n" ++ vs else k ++ "\n" ++ vs ++ ";"
    else k ++ " " ++ vs ++ ";") :: buildLines es

end

/- FOAMBuilder(dictionary).content. -/

def build (d : PyDict) : String := joinSep "\n" (buildLines d)

/- Python structural equality on parse-result values: ints and floats compare
numerically across kinds, tuple equality ignores the MultiValue subclass, dict
equality ignores both insertion order and the DictTuple subclass.  The fuel
argument only bounds nesting depth; pyEq supplies one that always suffices
because every recursive step shrinks total size. -/

def lookupVal (k : String) : PyDict → Option Value
  | [] => none
  | (k', v) :: rest => if k' = k then some v else lookupVal k rest

def pyIntFloatEq (i : Int) (f : PyFloat) : Bool :=
  i * Int.ofNat f.den == f.num

mutual

def pyEqF : Nat → Value → Value → Bool
  | 0, _, _ => false
  | f+1, a, b =>
    match a, b with
    | .vint x, .vint y => x == y
    | .vint x, .vfloat y => pyIntFloatEq x y
    | .vfloat x, .vint y => pyIntFloatEq y x
    | .vfloat x, .vfloat y => x.num * Int.ofNat y.den == y.num * Int.ofNat x.den
    | .vstr x, .vstr y => x == y
    | .vtuple xs, .vtuple ys => pyEqListF f xs ys
    | .vtuple xs, .vmulti ys => pyEqListF f xs ys
    | .vmulti xs, .vtuple ys => pyEqListF f xs ys
    | .vmulti xs, .vmulti ys => pyEqListF f xs ys
    | .vlist xs, .vlist ys => pyEqListF f xs ys
    | .vdict xs, .vdict ys => xs.length == ys.length && pyEqEntriesF f xs ys
    | .vdict xs, .vdicttuple ys => xs.length == ys.length && pyEqEntriesF f xs ys
    | .vdicttuple xs, .vdict ys => xs.length == ys.length && pyEqEntriesF f xs ys
    | .vdicttuple xs, .vdicttuple ys => xs.length == ys.length && pyEqEntriesF f xs ys
    | _, _ => false

def pyEqListF : Nat → List Value → List Value → Bool
  | _, [], [] => true
  | f+1, x :: xs, y :: ys => pyEqF f x y && pyEqListF f xs ys
  | _, _, _ => false

def pyEqEntriesF : Nat → PyDict → PyDict → Bool
  | _, [], _ => true
  | f+1, (k, v) :: rest, ys =>
    (match lookupVal k ys with
     | some w => pyEqF f v w
     | none => false) && pyEqEntriesF f rest ys
  | 0, _ :: _, _ => false

end

mutual

def valSize : Value → Nat
  | .vint _ => 1
  | .vfloat _ => 1
  | .vstr _ => 1
  | .vtuple xs => 1 + valListSize xs
  | .vmulti xs => 1 + valListSize xs
  | .vlist xs => 1 + valListSize xs
  | .vdict es => 1 + entListSize es
  | .vdicttuple es => 1 + entListSize es

def valListSize : List Value → Nat
  | [] => 1
  | v :: vs => 1 + valSize v + valListSize vs

def entListSize : List (String × Value) → Nat
  | [] => 1
  | (_, v) :: es => 1 + valSize v + entListSize es

end

def pyEq (a b : Value) : Bool := pyEqF (valSize a + valSize b) a b

def pyDictEq (a b : PyDict) : Bool :=
  a.length == b.length && pyEqEntriesF (entListSize a + entListSize b) a b

/- File-identity and snapshot model (src/interface/file.py).  The operating
system state is a finite map from absolute paths to file contents; the
process-wide singleton registry maps each canonical path to the state of its
unique File handle (its autosave flag and its ordered list of registered
snapshot paths); Python's second-resolution timestamps are modelled by a
strictly increasing counter, which assumes successive snapshot names are
distinct (calls in distinct seconds). -/

def alistGet (l : List (String × α)) (k : String) : Option α :=
  match l with
  | [] => none
  | (k', v) :: rest => if k' = k then some v else alistGet rest k

def alistSet (l : List (String × α)) (k : String) (v : α) : List (String × α) :=
  match l with
  | [] => [(k, v)]
  | (k', v') :: rest => if k' = k then (k', v) :: rest else (k', v') :: alistSet rest k v

def alistRemove (l : List (String × α)) (k : String) : List (String × α) :=
  match l with
  | [] => []
  | (k', v') :: rest => if k' = k then rest else (k', v') :: alistRemove rest k

/- posixpath basename, dirname and join, as used by os.path on Linux. -/

def basename (p : String) : String :=
  match splitAtLast (fun c => c = '/') p.data with
  | some (_, post) => String.mk post
  | none => p

def dirname (p : String) : String :=
  match splitAtLast (fun c => c = '/') p.data with
  | none => ""
  | some (pre, _) =>
    let head := pre ++ ['/']
    if head.all (fun c => c = '/') then String.mk head
    else String.mk ((head.reverse.dropWhile (fun c => c = '/')).reverse)

def strStarts (pat s : String) : Bool := pat.data.isPrefixOf s.data

def pjoin (a b : String) : String :=
  if strStarts "/" b then b
  else if a = "" || a.data.getLast? = some '/' then a ++ b
  else a ++ "/" ++ b

/- posixpath.normpath: drop empty and dot components, resolve dot-dot
lexically, keep the special double-slash root. -/

def splitSlash : List Char → List (List Char)
  | [] => [[]]
  | '/' :: cs => [] :: splitSlash cs
  | c :: cs =>
    match splitSlash cs with
    | g :: gs => (c :: g) :: gs
    | [] => [[c]]

def normpath (p : String) : String :=
  if p = "" then "." else
  let d := p.data
  let slashes : Nat :=
    if d.take 2 = ['/', '/'] && d.take 3 ≠ ['/', '/', '/'] then 2
    else if d.take 1 = ['/'] then 1 else 0
  let comps := (splitSlash d).map String.mk
  let newComps := comps.foldl (fun acc comp =>
    if comp = "" || comp = "." then acc
    else if comp ≠ ".." || (slashes = 0 && acc = []) ||
        (acc ≠ [] && acc.getLast? = some "..") then acc ++ [comp]
    else if acc ≠ [] then acc.dropLast
    else acc) []
  let out := String.mk (List.replicate slashes '/') ++ joinSep "/" newComps
  if out = "" then "." else out

def abspath (cwd p : String) : String :=
  if strStarts "/" p then normpath p else normpath (pjoin cwd p)

/- The module-level _parse_env: substitute each non-greedy occurrence of a
dollar-brace placeholder by the environment value (empty string when unset).
The regex dot matches neither a newline nor nothing, so the variable name is
the shortest non-empty newline-free run ending before a closing brace; a
dollar-brace with no such closer stays literal. -/

def envGet (env : List (String × String)) (k : String) : String :=
  match alistGet env k with
  | some v => v
  | none => ""

def scanVarClose : List Char → Option (List Char × List Char)
  | [] => none
  | '\x7d' :: r => some ([], r)
  | '\n' :: _ => none
  | c :: r =>
    match scanVarClose r with
    | some (nm, after) => some (c :: nm, after)
    | none => none

def findVarEnd : List Char → Option (List Char × List Char)
  | [] => none
  | '\n' :: _ => none
  | c :: rest =>
    match scanVarClose rest with
    | some (nm, after) => some (c :: nm, after)
    | none => none

def parseEnvLoop (env : List (String × String)) : Nat → List Char → List Char
  | _, [] => []
  | 0, _ :: _ => []
  | f+1, '$' :: '\x7b' :: rest =>
    match findVarEnd rest with
    | some (nm, after) => (envGet env (String.mk nm)).data ++ parseEnvLoop env f after
    | none => '$' :: parseEnvLoop env f ('\x7b' :: rest)
  | f+1, c :: cs => c :: parseEnvLoop env f cs

def parseEnv (env : List (String × String)) (p : String) : String :=
  String.mk (parseEnvLoop env (p.data.length + 1) p.data)

/- System state and handle construction. -/

structure FState where
  autosave : Bool
  snapshots : List String
deriving DecidableEq, Repr

structure Sys where
  disk : List (String × String)
  reg : List (String × FState)
  clock : Nat
deriving DecidableEq, Repr

def snapMark : String := "-snapshot-"

def hasSubstr (pat : List Char) : List Char → Bool
  | [] => pat.isEmpty
  | c :: cs => pat.isPrefixOf (c :: cs) || hasSubstr pat cs

def isSnapshotName (n : String) : Bool := hasSubstr snapMark.data n.data

def listDir (disk : List (String × String)) (dir : String) : List String :=
  ((disk.map Prod.fst).filter (fun q => dirname q = dir)).map basename

def charListLt : List Char → List Char → Bool
  | [], [] => false
  | [], _ :: _ => true
  | _ :: _, [] => false
  | a :: as, b :: bs => a.toNat < b.toNat || (a == b && charListLt as bs)

def strLt (a b : String) : Bool := charListLt a.data b.data

def insertSorted (x : String) : List String → List String
  | [] => [x]
  | y :: ys => if strLt x y then x :: y :: ys else y :: insertSorted x ys

def sortStr : List String → List String
  | [] => []
  | x :: xs => insertSorted x (sortStr xs)

/- File.__init__ through SingletonMeta.__call__ for an already-canonical
path: return the existing handle if registered; otherwise construct one,
scanning the containing folder for snapshot files (skipped when the file is
itself a snapshot) and registering their handles, sorted by name. -/

def fileNew (p : String) (sys : Sys) : Sys :=
  if (alistGet sys.reg p).isSome then sys
  else
    let nm := basename p
    if isSnapshotName nm then { sys with reg := sys.reg ++ [(p, ⟨true, []⟩)] }
    else
      let dir := dirname p
      let names := sortStr ((listDir sys.disk dir).filter
        (fun f => strStarts (nm ++ snapMark) f))
      let paths := names.map (fun f => pjoin dir f)
      let sys1 := paths.foldl (fun s q =>
        if (alistGet s.reg q).isSome then s
        else { s with reg := s.reg ++ [(q, ⟨true, []⟩)] }) sys
      { sys1 with reg := sys1.reg ++ [(p, ⟨true, paths⟩)] }

inductive FsErr where
  | noHandle
  | fileNotFound
  | snapshotNotFound
deriving DecidableEq, Repr

/- File.content getter: read the on-disk bytes (error when absent). -/

def contentGet (p : String) (sys : Sys) : Option String := alistGet sys.disk p

/- File.content setter: under autosave, read the current content, write it to
a fresh timestamped snapshot file, register the snapshot handle and append it
to this handle's list; then overwrite the live file. -/

def setContent (p : String) (v : String) (sys : Sys) : Except FsErr Sys :=
  match alistGet sys.reg p with
  | none => .error .noHandle
  | some st =>
    if st.autosave then
      match alistGet sys.disk p with
      | none => .error .fileNotFound
      | some cur =>
        let snapPath := p ++ snapMark ++ natRepr sys.clock
        let sys1 : Sys :=
          { sys with disk := alistSet sys.disk snapPath cur, clock := sys.clock + 1 }
        let sys2 := fileNew snapPath sys1
        let sys3 : Sys :=
          { sys2 with reg := alistSet sys2.reg p ⟨st.autosave, st.snapshots ++ [snapPath]⟩ }
        .ok { sys3 with disk := alistSet sys3.disk p v }
    else .ok { sys with disk := alistSet sys.disk p v }

/- File.delete: when the live file exists, remove it, then delete every
registered snapshot that exists on disk and clear the snapshot list; when it
does not exist, do nothing at all.  The fuel bounds the (in practice depth-one)
chain of snapshots-of-snapshots. -/

def deleteFuel : Nat → String → Sys → Sys
  | 0, _, sys => sys
  | f+1, p, sys =>
    match alistGet sys.disk p with
    | none => sys
    | some _ =>
      let sys1 : Sys := { sys with disk := alistRemove sys.disk p }
      let snaps := match alistGet sys1.reg p with
        | some st => st.snapshots
        | none => []
      let sys2 := snaps.foldl (fun s q =>
        match alistGet s.disk q with
        | some _ => deleteFuel f q s
        | none => s) sys1
      match alistGet sys2.reg p with
      | some st => { sys2 with reg := alistSet sys2.reg p ⟨st.autosave, []⟩ }
      | none => sys2

def fileDelete (p : String) (sys : Sys) : Sys :=
  deleteFuel (sys.reg.length + 1) p sys

/- File.rollback: require the argument to be a registered snapshot of this
handle (File equality is path equality); assign self.content from the
snapshot's content — note this goes through the ordinary autosaving setter —
then delete the snapshot's backing file. -/

def rollback (p snap : String) (sys : Sys) : Except FsErr Sys :=
  match alistGet sys.reg p with
  | none => .error .noHandle
  | some st =>
    if st.snapshots.contains snap then
      match alistGet sys.disk snap with
      | none => .error .fileNotFound
      | some sc =>
        match setContent p sc sys with
        | .error e => .error e
        | .ok sys1 => .ok (fileDelete snap sys1)
    else .error .snapshotNotFound

/- resolve: expand environment placeholders, canonicalize to an absolute
path, and return the process-wide handle for it (here: its canonical path
plus the updated registry).  File.__eq__ compares canonical paths. -/

def canonPath (env : List (String × String)) (cwd p : String) : String :=
  abspath cwd (parseEnv env p)

def resolve (env : List (String × String)) (cwd p : String) (sys : Sys) :
    String × Sys :=
  let cp := canonPath env cwd p
  (cp, fileNew cp sys)

def fileEq (a b : String) : Bool := a == b

/- A concrete snapshot-lifecycle scenario: a fresh autosaving file at /d/f with
content X; snapSysA is its state after resolution, snapSysB after
set_content Y, snapSysC after rollback to the snapshot. -/

def snapSys0 : Sys := { disk := [("/d/f", "X")], reg := [], clock := 0 }

def snapSysA : Sys := fileNew "/d/f" snapSys0

def snapSysB : Sys :=
  { disk := [("/d/f", "Y"), ("/d/f-snapshot-0", "X")],
    reg := [("/d/f", ⟨true, ["/d/f-snapshot-0"]⟩), ("/d/f-snapshot-0", ⟨true, []⟩)],
    clock := 1 }

def snapSysC : Sys :=
  { disk := [("/d/f", "X"), ("/d/f-snapshot-1", "Y")],
    reg := [("/d/f", ⟨true, ["/d/f-snapshot-0", "/d/f-snapshot-1"]⟩),
            ("/d/f-snapshot-0", ⟨true, []⟩), ("/d/f-snapshot-1", ⟨true, []⟩)],
    clock := 2 }

/- Flat integer-valued documents, the class for which the build-parse round
trip is established below: keys are non-empty runs of ASCII name characters
(code point at most 127, not Python whitespace, not lexer punctuation) whose
first character starts no number (not a digit, a sign or a dot) and no comment
(not a slash), mapped to integer scalars.  The ASCII bound keeps the embedding
exact: on ASCII, pyIsSpace is precisely str.isspace() and Char.isDigit is
precisely str.isdigit(). -/

def isKeyChar (c : Char) : Bool :=
  isNameChar c && decide (c.toNat ≤ 127)

def plainKey (s : String) : Bool :=
  match s.data with
  | [] => false
  | c :: _ =>
    s.data.all isKeyChar && !c.isDigit && !isSignChar c && !(c = '.') && !(c = '/')

def mkFlatDict (entries : List (String × Int)) : PyDict :=
  entries.map (fun kv => (kv.1, .vint kv.2))

def flatLine (kv : String × Int) : String := kv.1 ++ " " ++ intRepr kv.2 ++ ";"

def flatText (entries : List (String × Int)) : String :=
  joinSep "\n" (entries.map flatLine)

def flatToks : List (String × Int) → List PToken
  | [] => []
  | kv :: es => .name kv.1 :: .int kv.2 :: .punct ';' :: flatToks es

def pairToks (entries : List (String × Int)) : List PToken :=
  entries.map (fun kv => .pair kv.1 [.vint kv.2])

/- Shared helper lemmas about dictionary assembly: inserting a fresh key
appends, so assembling pairwise-distinct keys preserves source order. -/

theorem insertPy_fresh (d : PyDict) (k : String) (v : Value)
    (h : ∀ kv ∈ d, kv.1 ≠ k) : insertPy d k v = d ++ [(k, v)] := by
  induction d with
  | nil => rfl
  | cons kv rest ih =>
    have hk : kv.1 ≠ k := h kv (List.mem_cons_self kv rest)
    cases kv with
    | mk k' v' =>
      simp only [insertPy, if_neg hk, List.cons_append, List.cons.injEq, true_and]
      exact ih fun kv' hkv' => h kv' (List.mem_cons_of_mem _ hkv')

theorem assemble_fold_nodup (prs : List (String × List Value)) (acc : PyDict)
    (hd : (acc.map Prod.fst ++ prs.map Prod.fst).Nodup) :
    prs.foldl (fun d kv => insertPy d kv.1 (collapse kv.2)) acc =
      acc ++ prs.map (fun kv => (kv.1, collapse kv.2)) := by
  induction prs generalizing acc with
  | nil => simp
  | cons kv rest ih =>
    have hdisj : (acc.map Prod.fst).Disjoint (kv.1 :: rest.map Prod.fst) :=
      (List.nodup_append.1 hd).2.2
    have hfresh : ∀ kv' ∈ acc, kv'.1 ≠ kv.1 := by
      intro kv' hkv' heq
      exact hdisj (List.mem_map_of_mem Prod.fst hkv') (heq ▸ List.mem_cons_self _ _)
    have hstep : insertPy acc kv.1 (collapse kv.2) = acc ++ [(kv.1, collapse kv.2)] :=
      insertPy_fresh acc kv.1 (collapse kv.2) hfresh
    have hd' : ((acc ++ [(kv.1, collapse kv.2)]).map Prod.fst ++ rest.map Prod.fst).Nodup := by
      simpa [List.append_assoc] using hd
    simp only [List.foldl_cons, hstep]
    rw [ih _ hd']
    simp

theorem allPairs_map (prs : List (String × List Value)) :
    allPairs (prs.map fun kv => PToken.pair kv.1 kv.2) = some prs := by
  induction prs with
  | nil => rfl
  | cons kv rest ih => simp [allPairs, ih]

theorem assemble_nodup (prs : List (String × List Value))
    (hd : (prs.map Prod.fst).Nodup) :
    assemble (prs.map fun kv => PToken.pair kv.1 kv.2) =
      .ok (prs.map fun kv => (kv.1, collapse kv.2)) := by
  simp [assemble, allPairs_map, assemble_fold_nodup prs [] (by simpa using hd)]

/- Association-list and registry helper lemmas. -/

theorem alistGet_set_self {α} (l : List (String × α)) (k : String) (v : α) :
    alistGet (alistSet l k v) k = some v := by
  induction l with
  | nil => simp [alistSet, alistGet]
  | cons kv rest ih =>
    by_cases h : kv.1 = k
    · simp [alistSet, alistGet, h]
    · simp [alistSet, alistGet, h, ih]

theorem alistGet_append_isSome {α} (l : List (String × α)) (p : String) (x : α) :
    (alistGet (l ++ [(p, x)]) p).isSome = true := by
  induction l with
  | nil => simp [alistGet]
  | cons kv rest ih =>
    by_cases h : kv.1 = p
    · simp [alistGet, h]
    · simp [alistGet, h, ih]

theorem fileNew_registered (p : String) (sys : Sys) :
    (alistGet (fileNew p sys).reg p).isSome = true := by
  rw [fileNew]
  by_cases h : (alistGet sys.reg p).isSome = true
  · rw [if_pos h]; exact h
  · rw [if_neg h]
    by_cases hs : isSnapshotName (basename p) = true
    · simp [hs, alistGet_append_isSome]
    · simp [hs, alistGet_append_isSome]

theorem fileNew_of_registered (p : String) (sys : Sys)
    (h : (alistGet sys.reg p).isSome = true) : fileNew p sys = sys := by
  rw [fileNew, if_pos h]

theorem setContent_content (p v : String) (sys out : Sys)
    (h : setContent p v sys = .ok out) : contentGet p out = some v := by
  unfold setContent at h
  split at h
  · simp at h
  · split at h
    · split at h
      · simp at h
      · simp only [Except.ok.injEq] at h
        subst h
        simp [contentGet, alistGet_set_self]
    · simp only [Except.ok.injEq] at h
      subst h
      simp [contentGet, alistGet_set_self]

/- Pair-reduction pass lemmas: how pairStep treats a token list whose first
name, value run and terminator are known. -/

theorem pairStep_closes (pre vals post : List PToken) (k : String)
    (hpre : ∀ t ∈ pre, (isNameTok t || isPunctTok t) = false)
    (hvals : ∀ t ∈ vals, isPunctTok t = false) (hne : vals ≠ []) :
    pairStep (pre ++ .name k :: vals ++ .punct ';' :: post) =
      .ok (some (pre ++ .pair k (vals.map tokenValue) :: post)) := by
  have h1 := splitAtFirst_found (fun t => isNameTok t || isPunctTok t) pre (.name k)
    (vals ++ .punct ';' :: post) hpre rfl
  have h2 := splitAtFirst_found isPunctTok vals (.punct ';') post hvals rfl
  have hie : vals.isEmpty = false := by
    cases vals with
    | nil => exact absurd rfl hne
    | cons v vs => rfl
  simp [pairStep, h1, h2, hie]

theorem pairStep_no_semicolon (pre vals : List PToken) (k : String)
    (hpre : ∀ t ∈ pre, (isNameTok t || isPunctTok t) = false)
    (hvals : ∀ t ∈ vals, isPunctTok t = false) :
    pairStep (pre ++ .name k :: vals) = .error .unmatchedName := by
  have h1 := splitAtFirst_found (fun t => isNameTok t || isPunctTok t) pre (.name k)
    vals hpre rfl
  have h2 := splitAtFirst_none isPunctTok vals hvals
  simp [pairStep, h1, h2]

theorem pairStep_empty_pair (pre post : List PToken) (k : String)
    (hpre : ∀ t ∈ pre, (isNameTok t || isPunctTok t) = false) :
    pairStep (pre ++ .name k :: .punct ';' :: post) = .error .unmatchedName := by
  have h1 := splitAtFirst_found (fun t => isNameTok t || isPunctTok t) pre (.name k)
    (.punct ';' :: post) hpre rfl
  have h2 := splitAtFirst_found isPunctTok [] (.punct ';') post (by simp) rfl
  simp only [List.nil_append] at h2
  simp [pairStep, h1, h2]

theorem pairStep_bad_punct (pre vals post : List PToken) (k : String) (c : Char)
    (hpre : ∀ t ∈ pre, (isNameTok t || isPunctTok t) = false)
    (hvals : ∀ t ∈ vals, isPunctTok t = false) (hc : c ≠ ';') :
    pairStep (pre ++ .name k :: vals ++ .punct c :: post) = .error .unexpectedToken := by
  have h1 := splitAtFirst_found (fun t => isNameTok t || isPunctTok t) pre (.name k)
    (vals ++ .punct c :: post) hpre rfl
  have h2 := splitAtFirst_found isPunctTok vals (.punct c) post hvals rfl
  simp [pairStep, h1, h2, hc]

/- Tuple-reduction pass lemmas: the innermost-leftmost paren region reduces to
a DictTuple when its interior retains punctuation, else to a plain tuple. -/

theorem tupleStep_dicttuple (sub : List PToken → Except PErr PyDict)
    (pre mid post : List PToken) (d : PyDict)
    (hpre : ∀ t ∈ pre, punctIs ')' t = false)
    (hmid : ∀ t ∈ mid, punctIs '(' t = false ∧ punctIs ')' t = false)
    (hpunct : mid.any isPunctTok = true) (hsub : sub mid = .ok d) :
    tupleStep sub (pre ++ .punct '(' :: mid ++ .punct ')' :: post) =
      .ok (some (pre ++ .value (.vdicttuple d) :: post)) := by
  have hall : ∀ y ∈ pre ++ .punct '(' :: mid, punctIs ')' y = false := by
    intro y hy
    rcases List.mem_append.1 hy with hy | hy
    · exact hpre y hy
    · rcases List.mem_cons.1 hy with rfl | hy
      · rfl
      · exact (hmid y hy).2
  have h1 := splitAtFirst_found (punctIs ')') (pre ++ .punct '(' :: mid)
    (.punct ')') post hall rfl
  have h2 := splitAtLast_found (punctIs '(') pre (.punct '(') mid rfl
    (fun y hy => (hmid y hy).1)
  simp only [List.append_assoc, List.cons_append] at h1
  simp [tupleStep, h1, h2, hpunct, hsub]

theorem tupleStep_tuple (sub : List PToken → Except PErr PyDict)
    (pre mid post : List PToken)
    (hpre : ∀ t ∈ pre, punctIs ')' t = false)
    (hmid : ∀ t ∈ mid, punctIs '(' t = false ∧ punctIs ')' t = false)
    (hpunct : mid.any isPunctTok = false) :
    tupleStep sub (pre ++ .punct '(' :: mid ++ .punct ')' :: post) =
      .ok (some (pre ++ .value (.vtuple (mid.map tokenValue)) :: post)) := by
  have hall : ∀ y ∈ pre ++ .punct '(' :: mid, punctIs ')' y = false := by
    intro y hy
    rcases List.mem_append.1 hy with hy | hy
    · exact hpre y hy
    · rcases List.mem_cons.1 hy with rfl | hy
      · rfl
      · exact (hmid y hy).2
  have h1 := splitAtFirst_found (punctIs ')') (pre ++ .punct '(' :: mid)
    (.punct ')') post hall rfl
  have h2 := splitAtLast_found (punctIs '(') pre (.punct '(') mid rfl
    (fun y hy => (hmid y hy).1)
  simp only [List.append_assoc, List.cons_append] at h1
  simp [tupleStep, h1, h2, hpunct]

/- Character-class and decimal-digit groundwork for the round-trip theorem. -/

theorem char_eq_iff_toNat (a b : Char) : a = b ↔ a.toNat = b.toNat := by
  constructor
  · intro h; rw [h]
  · intro h
    apply Char.ext
    apply UInt32.ext
    exact h

theorem char_le_iff_toNat (a b : Char) : a ≤ b ↔ a.toNat ≤ b.toNat := Iff.rfl

theorem digitChar_toNat (n : Nat) (h : n < 10) : (digitChar n).toNat = 48 + n := by
  have hv : (48 + n).isValidChar := Or.inl (by omega)
  simp [digitChar, Char.ofNat, dif_pos hv, Char.ofNatAux, Char.toNat, UInt32.toNat,
    BitVec.toNat_ofNatLt]

theorem digitChar_isDigit (n : Nat) (h : n < 10) : (digitChar n).isDigit = true := by
  have ht := digitChar_toNat n h
  simp only [Char.isDigit, Bool.and_eq_true, decide_eq_true_eq]
  constructor
  · show ('0' : Char) ≤ digitChar n
    rw [char_le_iff_toNat, ht, show ('0' : Char).toNat = 48 from rfl]
    omega
  · show digitChar n ≤ ('9' : Char)
    rw [char_le_iff_toNat, ht, show ('9' : Char).toNat = 57 from rfl]
    omega

theorem isDigit_toNat (c : Char) (h : c.isDigit = true) :
    48 ≤ c.toNat ∧ c.toNat ≤ 57 := by
  simp only [Char.isDigit, Bool.and_eq_true, decide_eq_true_eq] at h
  obtain ⟨h1, h2⟩ := h
  exact ⟨h1, h2⟩

theorem isDigit_facts (c : Char) (h : c.isDigit = true) :
    pyIsSpace c = false ∧ isPunctChar c = false ∧ isSignChar c = false ∧
    c ≠ '.' ∧ c ≠ '/' ∧ c ≠ '\n' ∧ c ≠ 'e' ∧ c ≠ 'E' := by
  obtain ⟨h1, h2⟩ := isDigit_toNat c h
  refine ⟨?_, ?_, ?_, ?_, ?_, ?_, ?_, ?_⟩
  · simp only [pyIsSpace, decide_eq_false_iff_not]
    omega
  all_goals try simp only [isPunctChar, isSignChar, Bool.or_eq_false_iff,
    decide_eq_false_iff_not]
  all_goals and_intros
  all_goals intro he
  all_goals subst he
  all_goals first
    | exact absurd h1 (by decide)
    | exact absurd h2 (by decide)

theorem natDigitsAux_digits (f : Nat) : ∀ n, ∀ c ∈ natDigitsAux f n, c.isDigit = true := by
  induction f with
  | zero => intro n c hc; cases hc
  | succ f ih =>
    intro n c hc
    by_cases h : n < 10
    · simp only [natDigitsAux, if_pos h, List.mem_singleton] at hc
      subst hc
      exact digitChar_isDigit n h
    · simp only [natDigitsAux, if_neg h, List.mem_append, List.mem_singleton] at hc
      rcases hc with hc | hc
      · exact ih (n / 10) c hc
      · subst hc
        exact digitChar_isDigit (n % 10) (Nat.mod_lt n (by omega))

theorem natDigitsAux_ne_nil (f n : Nat) (h : n < f) : natDigitsAux f n ≠ [] := by
  cases f with
  | zero => omega
  | succ f =>
    by_cases h10 : n < 10
    · simp [natDigitsAux, if_pos h10]
    · simp only [natDigitsAux, if_neg h10]
      intro he
      exact absurd (List.append_eq_nil.1 he).2 (by simp)

theorem digitsToNat_append (ds : List Char) (d : Char) :
    digitsToNat (ds ++ [d]) = 10 * digitsToNat ds + (d.toNat - 48) := by
  simp [digitsToNat, List.foldl_append]

theorem digitsToNat_natDigitsAux (f : Nat) : ∀ n, n < f →
    digitsToNat (natDigitsAux f n) = n := by
  induction f with
  | zero => intro n h; omega
  | succ f ih =>
    intro n h
    by_cases h10 : n < 10
    · simp [natDigitsAux, if_pos h10, digitsToNat, digitChar_toNat n h10]
    · have hlt : n / 10 < f := by omega
      simp only [natDigitsAux, if_neg h10, digitsToNat_append, ih (n / 10) hlt,
        digitChar_toNat (n % 10) (Nat.mod_lt n (by omega))]
      omega

theorem intRepr_digits_or_sign (v : Int) :
    ∀ c ∈ (intRepr v).data, c.isDigit = true ∨ c = '-' := by
  cases v with
  | ofNat n =>
    intro c hc
    exact Or.inl (natDigitsAux_digits (n+1) n c hc)
  | negSucc m =>
    intro c hc
    simp only [intRepr, String.data_append] at hc
    rcases List.mem_append.1 hc with hc | hc
    · simp only [show ("-" : String).data = ['-'] from rfl, List.mem_singleton] at hc
      exact Or.inr hc
    · exact Or.inl (natDigitsAux_digits (m+2) (m+1) c hc)

theorem intRepr_no_newline (v : Int) : ∀ c ∈ (intRepr v).data, c ≠ '\n' := by
  intro c hc
  rcases intRepr_digits_or_sign v c hc with h | h
  · exact (isDigit_facts c h).2.2.2.2.2.1
  · subst h
    decide

theorem intRepr_ne_nil (v : Int) : (intRepr v).data ≠ [] := by
  cases v with
  | ofNat n => exact natDigitsAux_ne_nil (n+1) n (by omega)
  | negSucc m => simp [intRepr, String.data_append]

/- Lexer-level lemmas: how lexLoop consumes a plain name word, a rendered
integer, a semicolon and whitespace. -/

theorem spanP_stop (p : Char → Bool) (w : List Char) (r : Char) (rs : List Char)
    (hw : ∀ c ∈ w, p c = true) (hr : p r = false) :
    spanP p (w ++ r :: rs) = (w, r :: rs) := by
  induction w with
  | nil => simp [spanP, hr]
  | cons c w' ih =>
    have hc := hw c (List.mem_cons_self c w')
    simp [spanP, hc, ih fun d hd => hw d (List.mem_cons_of_mem c hd)]

theorem spanP_head_false (p : Char → Bool) (c : Char) (cs : List Char)
    (hc : p c = false) : spanP p (c :: cs) = ([], c :: cs) := by
  simp [spanP, hc]

theorem isKeyChar_facts (c : Char) (h : isKeyChar c = true) :
    isNameChar c = true ∧ c.toNat ≤ 127 := by
  simp only [isKeyChar, Bool.and_eq_true, decide_eq_true_eq] at h
  exact h

theorem isNameChar_facts (c : Char) (h : isNameChar c = true) :
    pyIsSpace c = false ∧ isPunctChar c = false := by
  simp only [isNameChar, Bool.and_eq_true, Bool.not_eq_true'] at h
  exact h

theorem tryGetNumber_nonnum (c : Char) (cs : List Char)
    (hsgn : isSignChar c = false) (hdig : c.isDigit = false) (hdot : c ≠ '.') :
    tryGetNumber (c :: cs) = .ok none := by
  cases he : (c = 'e' || c = 'E') with
  | false =>
    simp [tryGetNumber, numScan, hsgn, spanP_head_false Char.isDigit c cs hdig, hdot, he]
  | true =>
    simp [tryGetNumber, numScan, hsgn, spanP_head_false Char.isDigit c cs hdig, hdot, he]

theorem tryGetNumber_int (v : Int) (r : Char) (rest : List Char)
    (hrd : r.isDigit = false) (hrdot : r ≠ '.') (hre : (r = 'e' || r = 'E') = false) :
    tryGetNumber ((intRepr v).data ++ r :: rest) = .ok (some (.int v, r :: rest)) := by
  cases v with
  | ofNat n =>
    have hds : (intRepr (Int.ofNat n)).data = natDigitsAux (n+1) n := rfl
    have hdig := natDigitsAux_digits (n+1) n
    have hspan : spanP Char.isDigit (natDigitsAux (n+1) n ++ r :: rest) =
        (natDigitsAux (n+1) n, r :: rest) := spanP_stop _ _ _ _ hdig hrd
    obtain ⟨c, ds', hcds⟩ : ∃ c ds', natDigitsAux (n+1) n = c :: ds' := by
      cases hh : natDigitsAux (n+1) n with
      | nil => exact absurd hh (natDigitsAux_ne_nil (n+1) n (by omega))
      | cons c ds' => exact ⟨c, ds', rfl⟩
    have hc : c.isDigit = true := hdig c (by rw [hcds]; exact List.mem_cons_self c ds')
    have hcsgn : isSignChar c = false := (isDigit_facts c hc).2.2.1
    have hval : digitsToNat (natDigitsAux (n+1) n) = n :=
      digitsToNat_natDigitsAux (n+1) n (by omega)
    rw [hcds] at hspan hval
    simp only [List.cons_append] at hspan
    rw [hds, hcds, List.cons_append]
    simp [tryGetNumber, numScan, hcsgn, hspan, hrdot, hre, scanIntValue, hval]
  | negSucc m =>
    have hds : (intRepr (Int.negSucc m)).data = '-' :: natDigitsAux (m+2) (m+1) := by
      simp [intRepr, natRepr, String.data_append]
    have hdig := natDigitsAux_digits (m+2) (m+1)
    have hspan : spanP Char.isDigit (natDigitsAux (m+2) (m+1) ++ r :: rest) =
        (natDigitsAux (m+2) (m+1), r :: rest) := spanP_stop _ _ _ _ hdig hrd
    have hne := natDigitsAux_ne_nil (m+2) (m+1) (by omega)
    have hval : digitsToNat (natDigitsAux (m+2) (m+1)) = m + 1 :=
      digitsToNat_natDigitsAux (m+2) (m+1) (by omega)
    have hlen : 0 < (natDigitsAux (m+2) (m+1)).length := List.length_pos.2 hne
    rw [hds, List.cons_append]
    simp [tryGetNumber, numScan, hspan, hrdot, hre, scanIntValue, hlen,
      show isSignChar '-' = true from rfl, hval, Int.negSucc_eq]

theorem lexLoop_space (f : Nat) (rest : List Char) :
    lexLoop (f+1) (' ' :: rest) = lexLoop f rest := by
  conv_lhs => rw [lexLoop.eq_def]
  simp [show pyIsSpace ' ' = true from by decide]

theorem lexLoop_newline (f : Nat) (rest : List Char) :
    lexLoop (f+1) ('\n' :: rest) = lexLoop f rest := by
  conv_lhs => rw [lexLoop.eq_def]
  simp [show pyIsSpace '\n' = true from by decide]

theorem lexLoop_semi (f : Nat) (rest : List Char) :
    lexLoop (f+1) (';' :: rest) =
      match lexLoop f rest with
      | .error e => .error e
      | .ok ts => .ok (.punct ';' :: ts) := by
  conv_lhs => rw [lexLoop.eq_def]
  simp [show pyIsSpace ';' = false from by decide, show isPunctChar ';' = true from rfl]

theorem lexLoop_name_step (f : Nat) (w rest : List Char) (hw : w ≠ [])
    (hk : ∀ c ∈ w, isKeyChar c = true)
    (hh : ∀ c, w.head? = some c →
      c.isDigit = false ∧ isSignChar c = false ∧ c ≠ '.' ∧ c ≠ '/') :
    lexLoop (f+1) (w ++ ' ' :: rest) =
      match lexLoop f (' ' :: rest) with
      | .error e => .error e
      | .ok ts => .ok (.name (String.mk w) :: ts) := by
  obtain ⟨c, w', rfl⟩ : ∃ c w', w = c :: w' := by
    cases w with
    | nil => exact absurd rfl hw
    | cons c w' => exact ⟨c, w', rfl⟩
  obtain ⟨hdig, hsgn, hdot, hslash⟩ := hh c (by simp)
  have hname : isNameChar c = true :=
    (isKeyChar_facts c (hk c (List.mem_cons_self c w'))).1
  obtain ⟨hws, hpunct⟩ := isNameChar_facts c hname
  have hspan : spanP isNameChar ((c :: w') ++ ' ' :: rest) = (c :: w', ' ' :: rest) :=
    spanP_stop isNameChar (c :: w') ' ' rest
      (fun d hd => (isKeyChar_facts d (hk d hd)).1) (by decide)
  rw [List.cons_append] at hspan ⊢
  conv_lhs => rw [lexLoop.eq_def]
  simp [hws, hpunct, hslash, hspan,
    tryGetNumber_nonnum c (w' ++ ' ' :: rest) hsgn hdig hdot]

theorem lexLoop_int_semi (f : Nat) (v : Int) (rest : List Char) :
    lexLoop (f+1) ((intRepr v).data ++ ';' :: rest) =
      match lexLoop f (';' :: rest) with
      | .error e => .error e
      | .ok ts => .ok (.int v :: ts) := by
  obtain ⟨c, ds', hcds⟩ : ∃ c ds', (intRepr v).data = c :: ds' := by
    cases hh : (intRepr v).data with
    | nil => exact absurd hh (intRepr_ne_nil v)
    | cons c ds' => exact ⟨c, ds', rfl⟩
  have hnum : tryGetNumber ((intRepr v).data ++ ';' :: rest) =
      .ok (some (.int v, ';' :: rest)) :=
    tryGetNumber_int v ';' rest (by decide) (by decide) (by decide)
  have hc : c.isDigit = true ∨ c = '-' :=
    intRepr_digits_or_sign v c (by rw [hcds]; exact List.mem_cons_self c ds')
  have hfacts : pyIsSpace c = false ∧ isPunctChar c = false ∧ c ≠ '/' := by
    rcases hc with hc | hc
    · obtain ⟨h1, h2, _, _, h5, _, _, _⟩ := isDigit_facts c hc
      exact ⟨h1, h2, h5⟩
    · subst hc
      refine ⟨by decide, by decide, by decide⟩
  obtain ⟨hws, hpunct, hslash⟩ := hfacts
  rw [hcds, List.cons_append] at hnum ⊢
  conv_lhs => rw [lexLoop.eq_def]
  simp [hws, hpunct, hslash, hnum]

/- Tokenizing a whole flat document. -/

theorem plainKey_facts (s : String) (h : plainKey s = true) :
    s.data ≠ [] ∧ (∀ c ∈ s.data, isKeyChar c = true) ∧
    ∀ c, s.data.head? = some c →
      c.isDigit = false ∧ isSignChar c = false ∧ c ≠ '.' ∧ c ≠ '/' := by
  rw [plainKey.eq_def] at h
  cases hd : s.data with
  | nil => rw [hd] at h; exact absurd h (by simp)
  | cons c cs =>
    rw [hd] at h
    have h2 : ((c :: cs).all isKeyChar && !c.isDigit && !isSignChar c &&
        !(c = '.') && !(c = '/')) = true := h
    simp only [Bool.and_eq_true, Bool.not_eq_true', List.all_eq_true,
      decide_eq_false_iff_not] at h2
    obtain ⟨⟨⟨⟨hall, hdig⟩, hsgn⟩, hdot⟩, hslash⟩ := h2
    refine ⟨by simp, ?_, ?_⟩
    · intro d hdm
      exact hall d hdm
    · intro c' hc'
      simp only [List.head?_cons, Option.some.injEq] at hc'
      subst hc'
      exact ⟨hdig, hsgn, hdot, hslash⟩

theorem flatText_cons_one (kv : String × Int) :
    (flatText [kv]).data = kv.1.data ++ ' ' :: ((intRepr kv.2).data ++ [';']) := by
  simp [flatText, flatLine, joinSep, String.data_append]

theorem flatText_cons_more (kv kv2 : String × Int) (es2 : List (String × Int)) :
    (flatText (kv :: kv2 :: es2)).data =
      kv.1.data ++ ' ' ::
        ((intRepr kv.2).data ++ ';' :: '\n' :: (flatText (kv2 :: es2)).data) := by
  simp [flatText, flatLine, joinSep, String.data_append]

theorem lexLoop_flat : ∀ entries : List (String × Int),
    (∀ kv ∈ entries, plainKey kv.1 = true) →
    ∀ fuel, 5 * entries.length ≤ fuel + 1 →
    lexLoop fuel (flatText entries).data = .ok (flatToks entries) := by
  intro entries
  induction entries with
  | nil =>
    intro _ fuel _
    show lexLoop fuel [] = .ok []
    cases fuel <;> rfl
  | cons kv es ih =>
    intro hk fuel hf
    obtain ⟨hkne, hkall, hkhead⟩ := plainKey_facts kv.1 (hk kv (List.mem_cons_self kv es))
    cases es with
    | nil =>
      obtain ⟨f, rfl⟩ : ∃ f, fuel = f + 4 := ⟨fuel - 4, by simp at hf; omega⟩
      rw [flatText_cons_one kv]
      rw [show f + 4 = (f + 3) + 1 from rfl,
        lexLoop_name_step (f+3) kv.1.data _ hkne hkall hkhead]
      rw [show f + 3 = (f + 2) + 1 from rfl, lexLoop_space (f+2)]
      rw [show ((intRepr kv.2).data ++ [';'] : List Char) =
        (intRepr kv.2).data ++ ';' :: [] from rfl]
      rw [show f + 2 = (f + 1) + 1 from rfl, lexLoop_int_semi (f+1) kv.2 []]
      rw [lexLoop_semi f []]
      cases f <;> rfl
    | cons kv2 es2 =>
      obtain ⟨f, rfl⟩ : ∃ f, fuel = f + 5 := ⟨fuel - 5, by simp at hf; omega⟩
      rw [flatText_cons_more kv kv2 es2]
      rw [show f + 5 = (f + 4) + 1 from rfl,
        lexLoop_name_step (f+4) kv.1.data _ hkne hkall hkhead]
      rw [show f + 4 = (f + 3) + 1 from rfl, lexLoop_space (f+3)]
      rw [show f + 3 = (f + 2) + 1 from rfl, lexLoop_int_semi (f+2) kv.2 _]
      rw [show f + 2 = (f + 1) + 1 from rfl, lexLoop_semi (f+1) _]
      rw [lexLoop_newline f _]
      rw [ih (fun kv' h' => hk kv' (List.mem_cons_of_mem kv h')) f
        (by simp at hf ⊢; omega)]
      rfl

theorem flatText_length (entries : List (String × Int))
    (hk : ∀ kv ∈ entries, plainKey kv.1 = true) :
    5 * entries.length ≤ (flatText entries).data.length + 2 := by
  induction entries with
  | nil => simp
  | cons kv es ih =>
    obtain ⟨hkne, -, -⟩ := plainKey_facts kv.1 (hk kv (List.mem_cons_self kv es))
    have hklen : 1 ≤ kv.1.data.length := by
      cases hh : kv.1.data with
      | nil => exact absurd hh hkne
      | cons c cs => simp
    have hrlen : 1 ≤ (intRepr kv.2).data.length := by
      cases hh : (intRepr kv.2).data with
      | nil => exact absurd hh (intRepr_ne_nil kv.2)
      | cons c cs => simp
    cases es with
    | nil =>
      have := flatText_cons_one kv
      have hlen := congrArg List.length this
      simp only [List.length_append, List.length_cons, List.length_singleton] at hlen
      simp only [List.length_singleton, List.length_cons, List.length_nil]
      omega
    | cons kv2 es2 =>
      have hih := ih (fun kv' h' => hk kv' (List.mem_cons_of_mem kv h'))
      have hlen := congrArg List.length (flatText_cons_more kv kv2 es2)
      simp only [List.length_append, List.length_cons] at hlen
      simp only [List.length_cons] at hih ⊢
      omega

theorem tokenize_flat (entries : List (String × Int))
    (hk : ∀ kv ∈ entries, plainKey kv.1 = true) :
    tokenize (flatText entries) = .ok (flatToks entries) := by
  apply lexLoop_flat entries hk
  have := flatText_length entries hk
  omega

/- Building a flat document and parsing its token stream. -/

theorem buildLines_flat (entries : List (String × Int)) :
    buildLines (mkFlatDict entries) = entries.map flatLine := by
  induction entries with
  | nil => rfl
  | cons kv es ih =>
    have hnl : '\n' ∉ (intRepr kv.2).data := fun hm => intRepr_no_newline kv.2 '\n' hm rfl
    simp [mkFlatDict, buildLines, buildValue, hnl, flatLine]
    simpa [mkFlatDict] using ih

theorem build_flat (entries : List (String × Int)) :
    build (mkFlatDict entries) = flatText entries := by
  simp [build, flatText, buildLines_flat]

theorem flatToks_shape (entries : List (String × Int)) : ∀ t ∈ flatToks entries,
    (∃ s, t = .name s) ∨ (∃ i, t = .int i) ∨ t = .punct ';' := by
  induction entries with
  | nil => intro t ht; cases ht
  | cons kv es ih =>
    intro t ht
    simp only [flatToks, List.mem_cons] at ht
    rcases ht with rfl | rfl | rfl | ht
    · exact Or.inl ⟨kv.1, rfl⟩
    · exact Or.inr (Or.inl ⟨kv.2, rfl⟩)
    · exact Or.inr (Or.inr rfl)
    · exact ih t ht

theorem flatToks_length (entries : List (String × Int)) :
    (flatToks entries).length = 3 * entries.length := by
  induction entries with
  | nil => rfl
  | cons kv es ih => simp [flatToks, ih]; omega

theorem passLoop_done (step : List PToken → Except PErr (Option (List PToken)))
    (f : Nat) (ts : List PToken) (h : step ts = .ok none) :
    passLoop step (f+1) ts = .ok ts := by
  simp [passLoop, h]

theorem passLoop_step (step : List PToken → Except PErr (Option (List PToken)))
    (f : Nat) (ts ts' : List PToken) (h : step ts = .ok (some ts')) :
    passLoop step (f+1) ts = passLoop step f ts' := by
  simp [passLoop, h]

theorem quoteStep_none (ts : List PToken) (h : ∀ t ∈ ts, isQuotePunct t = false) :
    quoteStep ts = .ok none := by
  simp [quoteStep, splitAtFirst_none isQuotePunct ts h]

theorem braceOpenSplit_none (ts : List PToken)
    (h : ∀ t ∈ ts, punctIs '\x7b' t = false ∧ punctIs '\x7d' t = false) :
    braceOpenSplit ts = .ok none := by
  induction ts with
  | nil => rfl
  | cons t ts' ih =>
    have ht := h t (List.mem_cons_self t ts')
    simp [braceOpenSplit, ht.1, ht.2,
      ih fun t' h' => h t' (List.mem_cons_of_mem t h')]

theorem braceStep_none (sub : List PToken → Except PErr PyDict) (ts : List PToken)
    (h : ∀ t ∈ ts, punctIs '\x7b' t = false ∧ punctIs '\x7d' t = false) :
    braceStep sub ts = .ok none := by
  simp [braceStep, braceOpenSplit_none ts h]

theorem tupleStep_none (sub : List PToken → Except PErr PyDict) (ts : List PToken)
    (h : ∀ t ∈ ts, punctIs '(' t = false ∧ punctIs ')' t = false) :
    tupleStep sub ts = .ok none := by
  have h1 := splitAtFirst_none (punctIs ')') ts (fun t ht => (h t ht).2)
  have h2 : ts.any (punctIs '(') = false := by
    rw [List.any_eq_false]
    exact fun t ht => by simp [(h t ht).1]
  simp [tupleStep, h1, h2]

theorem listStep_none (sub : List PToken → Except PErr PyDict) (ts : List PToken)
    (h : ∀ t ∈ ts, punctIs '[' t = false ∧ punctIs ']' t = false) :
    listStep sub ts = .ok none := by
  have h1 := splitAtFirst_none (punctIs ']') ts (fun t ht => (h t ht).2)
  have h2 : ts.any (punctIs '[') = false := by
    rw [List.any_eq_false]
    exact fun t ht => by simp [(h t ht).1]
  simp [listStep, h1, h2]

theorem pairLoop_flat : ∀ (entries : List (String × Int)) (done : List PToken) (f : Nat),
    entries.length ≤ f →
    (∀ t ∈ done, (isNameTok t || isPunctTok t) = false) →
    passLoop pairStep (f+1) (done ++ flatToks entries) = .ok (done ++ pairToks entries) := by
  intro entries
  induction entries with
  | nil =>
    intro done f _ hdone
    have hstep : pairStep (done ++ flatToks []) = .ok none := by
      simp only [flatToks, List.append_nil]
      simp [pairStep, splitAtFirst_none _ done hdone]
    rw [passLoop_done _ f _ hstep]
    simp [flatToks, pairToks]
  | cons kv es ih =>
    intro done f hf hdone
    obtain ⟨f', rfl⟩ : ∃ f', f = f' + 1 := ⟨f - 1, by simp at hf; omega⟩
    have hstep := pairStep_closes done [.int kv.2] (flatToks es) kv.1 hdone
      (by intro t ht; fin_cases ht; rfl) (by simp)
    simp only [List.append_assoc, List.cons_append, List.nil_append, List.map_cons,
      List.map_nil, tokenValue] at hstep
    have hshow : done ++ flatToks (kv :: es) =
        done ++ .name kv.1 :: .int kv.2 :: .punct ';' :: flatToks es := rfl
    rw [hshow, passLoop_step _ (f' + 1) _ _ hstep]
    have hre : done ++ PToken.pair kv.1 [.vint kv.2] :: flatToks es =
        (done ++ [PToken.pair kv.1 [.vint kv.2]]) ++ flatToks es := by simp
    rw [hre, ih (done ++ [PToken.pair kv.1 [.vint kv.2]]) f' (by simp at hf; omega)
      (by
        intro t ht
        rcases List.mem_append.1 ht with ht | ht
        · exact hdone t ht
        · rcases List.mem_singleton.1 ht with rfl
          rfl)]
    simp [pairToks]

theorem assemble_flat (entries : List (String × Int))
    (hd : (entries.map Prod.fst).Nodup) :
    assemble (pairToks entries) = .ok (mkFlatDict entries) := by
  have h := assemble_nodup (entries.map (fun kv => (kv.1, [Value.vint kv.2])))
    (by simpa [List.map_map] using hd)
  simpa [pairToks, mkFlatDict, List.map_map, collapse] using h

theorem parseTokens_flat (entries : List (String × Int))
    (hd : (entries.map Prod.fst).Nodup) :
    parseTokens (flatToks entries) = .ok (mkFlatDict entries) := by
  cases entries with
  | nil => rfl
  | cons kv es =>
    have hshape := flatToks_shape (kv :: es)
    have hq : ∀ t ∈ flatToks (kv :: es), isQuotePunct t = false := by
      intro t ht
      rcases hshape t ht with ⟨s, rfl⟩ | ⟨i, rfl⟩ | rfl <;> rfl
    have hb : ∀ t ∈ flatToks (kv :: es),
        punctIs '\x7b' t = false ∧ punctIs '\x7d' t = false := by
      intro t ht
      rcases hshape t ht with ⟨s, rfl⟩ | ⟨i, rfl⟩ | rfl <;> exact ⟨rfl, rfl⟩
    have hp : ∀ t ∈ flatToks (kv :: es),
        punctIs '(' t = false ∧ punctIs ')' t = false := by
      intro t ht
      rcases hshape t ht with ⟨s, rfl⟩ | ⟨i, rfl⟩ | rfl <;> exact ⟨rfl, rfl⟩
    have hl : ∀ t ∈ flatToks (kv :: es),
        punctIs '[' t = false ∧ punctIs ']' t = false := by
      intro t ht
      rcases hshape t ht with ⟨s, rfl⟩ | ⟨i, rfl⟩ | rfl <;> exact ⟨rfl, rfl⟩
    have hlen : (kv :: es).length ≤ (flatToks (kv :: es)).length := by
      rw [flatToks_length]
      omega
    obtain ⟨m, hm⟩ : ∃ m, (flatToks (kv :: es)).length = m + 1 :=
      ⟨(flatToks (kv :: es)).length - 1, by simp [flatToks]⟩
    have hne : (flatToks (kv :: es)).isEmpty = false := rfl
    have h3 := flatToks_length (kv :: es)
    have hfin := pairLoop_flat (kv :: es) [] (m + 1)
      (by simp only [List.length_cons] at h3 ⊢; omega)
      (fun t ht => absurd ht (List.not_mem_nil t))
    simp only [List.nil_append] at hfin
    rw [parseTokens, parseP.eq_def]
    simp only [hm, hne, Bool.false_eq_true, if_false,
      passLoop_done _ (m + 1) _ (quoteStep_none _ hq),
      passLoop_done _ (m + 1) _ (braceStep_none (parseP (m + 1)) _ hb),
      passLoop_done _ (m + 1) _ (tupleStep_none (parseP (m + 1)) _ hp),
      passLoop_done _ (m + 1) _ (listStep_none (parseP (m + 1)) _ hl),
      hfin]
    exact assemble_flat (kv :: es) hd

/-- C1 counterexample: the round-trip claim fails on the accepted text
consisting of a key mapped to the quoted string holding the digit one.  Parsing
yields the string value; building renders it bare; re-parsing lexes it as an
integer, and the two trees are not equal (not even under Python equality, which
is modelled by pyDictEq). -/
theorem c1_roundtrip_counterexample :
    parseText "k \"1\";" = .ok [("k", .vstr "1")] ∧
    build [("k", .vstr "1")] = "k 1;" ∧
    parseText "k 1;" = .ok [("k", .vint 1)] ∧
    pyDictEq [("k", .vstr "1")] [("k", .vint 1)] = false ∧
    [("k", Value.vstr "1")] ≠ [("k", Value.vint 1)] := by
  refine ⟨rfl, rfl, rfl, rfl, ?_⟩
  intro h
  injection h with h1 _
  injection h1 with _ h2
  cases h2

/-- C1 amended: the round trip fails in general (a quoted numeric string is
re-lexed as a number, see the counterexample), but for documents whose tree is
a flat dictionary of plain bare-name keys (non-empty runs of ASCII name
characters whose first character starts no number and no comment) with
pairwise distinct names mapped to integer scalars, serializing with the
builder and re-parsing recovers the tree exactly. -/
theorem c1_roundtrip_flat_amended (entries : List (String × Int))
    (hk : ∀ kv ∈ entries, plainKey kv.1 = true)
    (hd : (entries.map Prod.fst).Nodup) :
    parseText (build (mkFlatDict entries)) = .ok (mkFlatDict entries) := by
  rw [build_flat entries]
  simp [parseText, tokenize_flat entries hk, parseTokens_flat entries hd]

/-- C1 witness: the amended round trip at a concrete two-entry document with a
negative value. -/
theorem c1_roundtrip_flat_amended_witness :
    parseText (build (mkFlatDict [("a", 1), ("bc", -2)])) =
      .ok (mkFlatDict [("a", 1), ("bc", -2)]) :=
  c1_roundtrip_flat_amended [("a", 1), ("bc", -2)] (by decide) (by decide)

/-- C2: the spec claims tokenize is total, but the source is not: the
closing-brace rule reads one character past the end of the input, so any input
ending in a closing brace raises IndexError, and the numeric scanner hands the
slice consisting of a digit and a bare exponent marker to int(), which raises
ValueError; genuinely malformed name-like input does degrade to a Name token. -/
theorem c2_lexer_totality_code_bug :
    tokenize "\x7d" = .error .indexError ∧
    tokenize "a\x7d" = .error .indexError ∧
    tokenize "1e" = .error .valueError ∧
    tokenize "+." = .error .valueError ∧
    tokenize "abc" = .ok [.name "abc"] ∧
    tokenize "." = .ok [.name "."] := by
  exact ⟨rfl, rfl, rfl, rfl, rfl, rfl⟩

/-- C3 counterexample: on the fresh autosaving file with content X, the first
half of the claim holds (one snapshot with content X, live content Y), but
rollback does not bypass snapshot creation and does not remove the rolled-back
snapshot from the registered list: afterwards the list has two entries, not
zero. -/
theorem c3_snapshot_lifecycle_counterexample :
    setContent "/d/f" "Y" snapSysA = .ok snapSysB ∧
    (alistGet snapSysB.reg "/d/f").map FState.snapshots = some ["/d/f-snapshot-0"] ∧
    contentGet "/d/f-snapshot-0" snapSysB = some "X" ∧
    contentGet "/d/f" snapSysB = some "Y" ∧
    rollback "/d/f" "/d/f-snapshot-0" snapSysB = .ok snapSysC ∧
    contentGet "/d/f" snapSysC = some "X" ∧
    (alistGet snapSysC.reg "/d/f").map (fun st => st.snapshots.length) = some 2 := by
  exact ⟨rfl, rfl, rfl, rfl, rfl, rfl, rfl⟩

/-- C3 amended: after set_content the registered snapshot list is exactly the
one snapshot with content X and the live content is Y; rollback restores the
live content to X and deletes the old snapshot's backing file, but the rollback
write goes through the ordinary autosaving setter, so a new snapshot holding Y
is created and registered, and the rolled-back snapshot handle stays in the
list: the final list holds the dangling old handle and the new snapshot
(assuming the two writes fall in distinct timestamp seconds, modelled by the
strictly increasing clock). -/
theorem c3_snapshot_lifecycle_amended :
    fileNew "/d/f" snapSys0 = snapSysA ∧
    setContent "/d/f" "Y" snapSysA = .ok snapSysB ∧
    (alistGet snapSysB.reg "/d/f").map FState.snapshots = some ["/d/f-snapshot-0"] ∧
    contentGet "/d/f-snapshot-0" snapSysB = some "X" ∧
    contentGet "/d/f" snapSysB = some "Y" ∧
    rollback "/d/f" "/d/f-snapshot-0" snapSysB = .ok snapSysC ∧
    contentGet "/d/f" snapSysC = some "X" ∧
    (alistGet snapSysC.reg "/d/f").map FState.snapshots =
      some ["/d/f-snapshot-0", "/d/f-snapshot-1"] ∧
    contentGet "/d/f-snapshot-0" snapSysC = none ∧
    contentGet "/d/f-snapshot-1" snapSysC = some "Y" := by
  exact ⟨rfl, rfl, rfl, rfl, rfl, rfl, rfl, rfl, rfl, rfl⟩

/-- C4: the first three numeric classifications hold as claimed (the float
token values are the exact rationals one and one hundred thousand), but the
digit-plus-bare-exponent input does not degrade to a Name token: the scanner's
validity check passes (one digit was seen), has_exp is reset, and int() is
called on the consumed two-character slice, raising ValueError. -/
theorem c4_numeric_classification_code_bug :
    tokenize "1" = .ok [.int 1] ∧
    tokenize "1.0" = .ok [.float ⟨10, 10⟩] ∧
    pyEq (.vfloat ⟨10, 10⟩) (.vfloat ⟨1, 1⟩) = true ∧
    tokenize "1e5" = .ok [.float ⟨100000, 1⟩] ∧
    tokenize "1e" = .error .valueError := by
  exact ⟨rfl, rfl, rfl, rfl, rfl⟩

/-- C5 counterexample: parsing two pairs with the same name at the same level
is not a GrammarError; the dict comprehension silently resolves the duplicate
with last-write-wins, keeping the key at its first position. -/
theorem c5_duplicate_keys_counterexample :
    parseText "a 1; a 2;" = .ok [("a", .vint 2)] ∧
    parseText "a 1; b 2; a 3;" = .ok [("a", .vint 3), ("b", .vint 2)] := by
  exact ⟨rfl, rfl⟩

/-- C5 amended: duplicate keys at one nesting level are silently resolved by
last-write-wins at dictionary construction (no error is raised; the key keeps
its first position and takes the last value); for pairwise distinct keys the
iteration order of the assembled map equals source order. -/
theorem c5_duplicate_keys_amended :
    (∀ prs : List (String × List Value), (prs.map Prod.fst).Nodup →
      assemble (prs.map fun kv => PToken.pair kv.1 kv.2) =
        .ok (prs.map fun kv => (kv.1, collapse kv.2))) ∧
    parseText "a 1; a 2;" = .ok [("a", .vint 2)] ∧
    parseText "a 1; b 2; a 3;" = .ok [("a", .vint 3), ("b", .vint 2)] := by
  exact ⟨assemble_nodup, rfl, rfl⟩

/-- C5 witness: the order-preservation part applied to two concrete distinct
keys. -/
theorem c5_duplicate_keys_amended_witness :
    assemble [PToken.pair "a" [.vint 1], PToken.pair "b" [.vint 2]] =
      .ok [("a", .vint 1), ("b", .vint 2)] :=
  c5_duplicate_keys_amended.1 [("a", [.vint 1]), ("b", [.vint 2])] (by decide)

/-- C6: in the tuple-reduction pass, a reduced paren region whose interior
still holds any punctuation token becomes a DictTuple built from the
recursively parsed interior, and an interior free of punctuation becomes a
plain tuple of the interior token values; on whole documents, the boundary
example yields a DictTuple keyed by the inner name and the vector example a
plain tuple. -/
theorem c6_tuple_disambiguation
    (sub : List PToken → Except PErr PyDict) (pre mid post : List PToken)
    (hpre : ∀ t ∈ pre, punctIs ')' t = false)
    (hmid : ∀ t ∈ mid, punctIs '(' t = false ∧ punctIs ')' t = false) :
    (∀ d, sub mid = .ok d → mid.any isPunctTok = true →
      tupleStep sub (pre ++ .punct '(' :: mid ++ .punct ')' :: post) =
        .ok (some (pre ++ .value (.vdicttuple d) :: post))) ∧
    (mid.any isPunctTok = false →
      tupleStep sub (pre ++ .punct '(' :: mid ++ .punct ')' :: post) =
        .ok (some (pre ++ .value (.vtuple (mid.map tokenValue)) :: post))) ∧
    parseText "boundary ( name \x7b type wall; \x7d );" =
      .ok [("boundary", .vdicttuple [("name", .vdict [("type", .vstr "wall")])])] ∧
    parseText "v (1 2 3);" = .ok [("v", .vtuple [.vint 1, .vint 2, .vint 3])] := by
  refine ⟨?_, ?_, rfl, rfl⟩
  · intro d hsub hpunct
    exact tupleStep_dicttuple sub pre mid post d hpre hmid hpunct hsub
  · intro hpunct
    exact tupleStep_tuple sub pre mid post hpre hmid hpunct

/-- C6 witness: the DictTuple branch applied to the reduced token state of the
boundary example, and the tuple branch to the vector example. -/
theorem c6_tuple_disambiguation_witness :
    tupleStep parseTokens
      [.name "boundary", .punct '(', .name "name",
       .value (.vdict [("type", .vstr "wall")]), .punct ';', .punct ')', .punct ';'] =
      .ok (some [.name "boundary",
        .value (.vdicttuple [("name", .vdict [("type", .vstr "wall")])]), .punct ';']) ∧
    tupleStep parseTokens
      [.name "v", .punct '(', .int 1, .int 2, .int 3, .punct ')', .punct ';'] =
      .ok (some [.name "v",
        .value (.vtuple [.vint 1, .vint 2, .vint 3]), .punct ';']) := by
  constructor
  · exact (c6_tuple_disambiguation parseTokens [.name "boundary"]
      [.name "name", .value (.vdict [("type", .vstr "wall")]), .punct ';']
      [.punct ';']
      (by intro t ht; fin_cases ht; rfl)
      (by intro t ht; fin_cases ht <;> exact ⟨rfl, rfl⟩)).1
      [("name", .vdict [("type", .vstr "wall")])] rfl rfl
  · exact (c6_tuple_disambiguation parseTokens [.name "v"]
      [.int 1, .int 2, .int 3] [.punct ';']
      (by intro t ht; fin_cases ht; rfl)
      (by intro t ht; fin_cases ht <;> exact ⟨rfl, rfl⟩)).2.1 rfl

/-- C7: at dictionary assembly a pair with exactly one collected value stores
that value directly and a pair with two or more stores a MultiValue wrapping
them in order; the concrete document with two parenthesised singleton groups
under one key parses to the claimed MultiValue of two tuples. -/
theorem c7_multivalue_collapse :
    (∀ k v, assemble [PToken.pair k [v]] = .ok [(k, v)]) ∧
    (∀ k v v' vs, assemble [PToken.pair k (v :: v' :: vs)] =
      .ok [(k, .vmulti (v :: v' :: vs))]) ∧
    parseText "k (1) (2);" =
      .ok [("k", .vmulti [.vtuple [.vint 1], .vtuple [.vint 2]])] := by
  refine ⟨?_, ?_, rfl⟩
  · intro k v
    rfl
  · intro k v v' vs
    rfl

/-- C8 counterexample: a document whose final pair has no trailing semicolon
does not parse; the pair pass raises the unmatched-name error at end of
stream. -/
theorem c8_pair_eos_counterexample :
    parseText "a 1" = .error (.gram .unmatchedName) ∧
    parseText "a 1; b 2" = .error (.gram .unmatchedName) := by
  exact ⟨rfl, rfl⟩

/-- C8 amended: a Name token opens a pair that closes only at the next
top-level semicolon, which is consumed; a name whose value run reaches the end
of the stream without a semicolon is a GrammarError (so a document whose final
pair lacks its semicolon fails to parse); a name immediately followed by a
semicolon is a GrammarError; and any other raw punctuation token between the
name and its terminator is a GrammarError. -/
theorem c8_pair_reduction_amended :
    (∀ pre vals post k, (∀ t ∈ pre, (isNameTok t || isPunctTok t) = false) →
      (∀ t ∈ vals, isPunctTok t = false) → vals ≠ [] →
      pairStep (pre ++ .name k :: vals ++ .punct ';' :: post) =
        .ok (some (pre ++ .pair k (vals.map tokenValue) :: post))) ∧
    (∀ pre vals k, (∀ t ∈ pre, (isNameTok t || isPunctTok t) = false) →
      (∀ t ∈ vals, isPunctTok t = false) →
      pairStep (pre ++ .name k :: vals) = .error .unmatchedName) ∧
    (∀ pre post k, (∀ t ∈ pre, (isNameTok t || isPunctTok t) = false) →
      pairStep (pre ++ .name k :: .punct ';' :: post) = .error .unmatchedName) ∧
    (∀ pre vals post k c, (∀ t ∈ pre, (isNameTok t || isPunctTok t) = false) →
      (∀ t ∈ vals, isPunctTok t = false) → c ≠ ';' →
      pairStep (pre ++ .name k :: vals ++ .punct c :: post) =
        .error .unexpectedToken) ∧
    parseText "a 1" = .error (.gram .unmatchedName) := by
  refine ⟨?_, ?_, ?_, ?_, rfl⟩
  · exact pairStep_closes
  · exact pairStep_no_semicolon
  · exact pairStep_empty_pair
  · intro pre vals post k c h1 h2 h3
    exact pairStep_bad_punct pre vals post k c h1 h2 h3

/-- C8 witness: the four pair-pass behaviours at concrete token lists. -/
theorem c8_pair_reduction_amended_witness :
    pairStep [.name "a", .int 1, .punct ';', .name "b"] =
      .ok (some [.pair "a" [.vint 1], .name "b"]) ∧
    pairStep [.value (.vint 7), .name "a", .int 1] = .error .unmatchedName ∧
    pairStep [.name "a", .punct ';'] = .error .unmatchedName ∧
    pairStep [.name "a", .int 1, .punct '(', .punct ';'] = .error .unexpectedToken := by
  refine ⟨?_, ?_, ?_, ?_⟩
  · exact c8_pair_reduction_amended.1 [] [.int 1] [.name "b"] "a"
      (by simp) (by intro t ht; fin_cases ht; rfl) (by simp)
  · exact c8_pair_reduction_amended.2.1 [.value (.vint 7)] [.int 1] "a"
      (by intro t ht; fin_cases ht; rfl) (by intro t ht; fin_cases ht; rfl)
  · exact c8_pair_reduction_amended.2.2.1 [] [.punct ';'] "a" (by simp)
  · exact c8_pair_reduction_amended.2.2.2.1 [] [.int 1] [.punct ';'] "a" '('
      (by simp) (by intro t ht; fin_cases ht; rfl) (by decide)

/-- C9: resolution expands environment placeholders and absolutizes, and the
singleton registry keys handles by the canonical path: two spellings with the
same canonical path yield the same handle, the second resolution does not
create a new instance, a write through one handle is read through the other,
and handle equality holds exactly when the canonical paths are equal. -/
theorem c9_handle_identity (env : List (String × String)) (cwd p1 p2 : String)
    (sys : Sys) (h : canonPath env cwd p1 = canonPath env cwd p2) :
    (resolve env cwd p1 sys).1 = (resolve env cwd p2 sys).1 ∧
    (resolve env cwd p2 ((resolve env cwd p1 sys).2)).2 = (resolve env cwd p1 sys).2 ∧
    (∀ v sys' out, setContent ((resolve env cwd p1 sys).1) v sys' = .ok out →
      contentGet ((resolve env cwd p2 sys).1) out = some v) ∧
    (∀ a b : String, fileEq a b = true ↔ a = b) := by
  refine ⟨by simp [resolve, h], ?_, ?_, ?_⟩
  · show fileNew (canonPath env cwd p2) (fileNew (canonPath env cwd p1) sys) =
      fileNew (canonPath env cwd p1) sys
    rw [← h]
    exact fileNew_of_registered _ _ (fileNew_registered _ _)
  · intro v sys' out hset
    show contentGet (canonPath env cwd p2) out = some v
    rw [← h]
    exact setContent_content _ v sys' out hset
  · intro a b
    simp [fileEq]

/-- C9 witness: a dollar-brace spelling and a plain absolute spelling of the
same path resolve to the same handle; a concrete write through it is read
back. -/
theorem c9_handle_identity_witness :
    (resolve [("FOO", "/tmp")] "/x" "${FOO}/a" snapSys0).1 =
      (resolve [("FOO", "/tmp")] "/x" "/tmp/a" snapSys0).1 ∧
    (resolve [("FOO", "/tmp")] "/x" "/tmp/a"
      ((resolve [("FOO", "/tmp")] "/x" "${FOO}/a" snapSys0).2)).2 =
      (resolve [("FOO", "/tmp")] "/x" "${FOO}/a" snapSys0).2 ∧
    contentGet "/tmp/a"
      { disk := [("/tmp/a", "new"), ("/tmp/a-snapshot-0", "old")],
        reg := [("/tmp/a", ⟨true, ["/tmp/a-snapshot-0"]⟩),
                ("/tmp/a-snapshot-0", ⟨true, []⟩)],
        clock := 1 } = some "new" := by
  have h := c9_handle_identity [("FOO", "/tmp")] "/x" "${FOO}/a" "/tmp/a" snapSys0 rfl
  refine ⟨h.1, h.2.1, ?_⟩
  exact h.2.2.1 "new"
    { disk := [("/tmp/a", "old")], reg := [("/tmp/a", ⟨true, []⟩)], clock := 0 }
    { disk := [("/tmp/a", "new"), ("/tmp/a-snapshot-0", "old")],
      reg := [("/tmp/a", ⟨true, ["/tmp/a-snapshot-0"]⟩),
              ("/tmp/a-snapshot-0", ⟨true, []⟩)],
      clock := 1 } rfl

/-- C10: when the backing file is absent, delete is a complete no-op: it does
not fail and leaves the disk, the registry (hence every registered snapshot
list and every on-disk snapshot file) and the clock unchanged; when the live
file exists, deletion removes it together with its on-disk snapshots and
clears the registered list. -/
theorem c10_delete_frame (p : String) (sys : Sys) (h : contentGet p sys = none) :
    fileDelete p sys = sys ∧
    fileDelete "/d/f" snapSysB =
      { disk := [],
        reg := [("/d/f", ⟨true, []⟩), ("/d/f-snapshot-0", ⟨true, []⟩)],
        clock := 1 } := by
  constructor
  · simp only [contentGet] at h
    simp [fileDelete, deleteFuel, h]
  · rfl

/-- C10 witness: deleting a path with no backing file in the concrete snapshot
scenario changes nothing. -/
theorem c10_delete_frame_witness :
    fileDelete "/d/g" snapSysB = snapSysB :=
  (c10_delete_frame "/d/g" snapSysB rfl).1

end SH30
